import Mathlib

/-!
Verification of the IAM policy-decision core of the gcp-iam-emulator
repository (package `internal/storage`: `storage.go` and `cel.go`).

Go strings are embedded as `List Char`; Go maps (`map[string]T`) are
embedded as association lists with unique keys, looked up by `lookupA`
and updated by `insertA`.  Fallible operations return `Except`.
-/

/-- Go strings, embedded as lists of characters. -/
abbrev Str := List Char

/-- Coerce a Lean string literal into the `Str` embedding. -/
def str (s : String) : Str := s.data

/-- Embeds Go `strings.HasPrefix(s, pre)`. -/
def strStartsWith (s pre : Str) : Bool := decide (pre <+: s)

/-- Embeds Go `strings.TrimPrefix(s, pre)`: removes the leading occurrence
of `pre` when present, otherwise returns `s` unchanged. -/
def strTrimLead (s pre : Str) : Str :=
  if strStartsWith s pre then s.drop pre.length else s

/-- Embeds Go `strings.Contains(s, sub)`. -/
def strContains (s sub : Str) : Bool := decide (sub <:+: s)

/-- Embeds Go `strings.Split(s, sep)` for a one-character separator
(the source only splits on "/" and "."): `splitOnChar [] c = [[]]`, and a
separator character starts a new (possibly empty) group. -/
def splitOnChar : Str → Char → List Str
  | [], _ => [[]]
  | x :: xs, c =>
    match splitOnChar xs c with
    | [] => [[x]]
    | g :: gs => if x = c then [] :: g :: gs else (x :: g) :: gs

/-- Embeds Go `strings.Join(parts, "/")`. -/
def joinSegs : List Str → Str
  | [] => []
  | [x] => x
  | x :: y :: rest => x ++ '/' :: joinSegs (y :: rest)

/-- Embeds Go `strings.Index(s, string(c))` for a one-character needle:
`none` models the -1 return. -/
def firstIdx (s : Str) (c : Char) : Option Nat := s.findIdx? (· = c)

/-- Embeds Go `strings.LastIndex(s, string(c))` for a one-character
needle: `none` models the -1 return. -/
def lastIdx (s : Str) (c : Char) : Option Nat :=
  match (s.reverse.findIdx? (· = c)) with
  | none => none
  | some i => some (s.length - 1 - i)

/-- Embeds Go `strings.Index(s, sub)` for a general needle. -/
def firstIdxSub (s sub : Str) : Option Nat :=
  if strStartsWith s sub then some 0
  else
    match s with
    | [] => none
    | _ :: t => (firstIdxSub t sub).map (· + 1)

/-- Embeds the Go subslice expression `s[a:b]`. -/
def goSlice (s : Str) (a b : Nat) : Str := (s.take b).drop a

/-- Embeds Go `strings.TrimSpace`. -/
def trimSpace (s : Str) : Str :=
  ((s.dropWhile Char.isWhitespace).reverse.dropWhile Char.isWhitespace).reverse

/-- Association-list lookup embedding a Go `map[string]T` read (keys are
unique, so first-match lookup agrees with the map). -/
def lookupA {β : Type} : List (Str × β) → Str → Option β
  | [], _ => none
  | (k, v) :: rest, key => if k = key then some v else lookupA rest key

/-- Association-list update embedding a Go `map[string]T` write. -/
def insertA {β : Type} : List (Str × β) → Str → β → List (Str × β)
  | [], k, v => [(k, v)]
  | (k2, v2) :: rest, k, v =>
    if k2 = k then (k, v) :: rest else (k2, v2) :: insertA rest k v

/-- Models Go `time.Time` as an abstract instant; `time.Before` and
`time.After` become `<` and `>` on this ordinal. -/
abbrev GoTime := Int

/-- Models Go `time.Parse(time.RFC3339, s)` on the `Z`-suffixed subset
`YYYY-MM-DDTHH:MM:SSZ` actually exercised by the repository; the instant
is encoded as a lexicographic ordinal, which preserves chronological
order.  No claim under verification depends on timestamp values. -/
def parseRFC3339 (s : Str) : Option GoTime :=
  match s with
  | [y1, y2, y3, y4, '-', m1, m2, '-', d1, d2, 'T',
     h1, h2, ':', n1, n2, ':', s1, s2, 'Z'] =>
    if [y1, y2, y3, y4, m1, m2, d1, d2, h1, h2, n1, n2, s1, s2].all Char.isDigit
    then
      let num := fun (l : Str) => l.foldl (fun a c => a * 10 + (c.toNat - 48)) 0
      some (Int.ofNat
        (((((num [y1, y2, y3, y4] * 13 + num [m1, m2]) * 32 + num [d1, d2]) * 24
          + num [h1, h2]) * 60 + num [n1, n2]) * 60 + num [s1, s2]))
    else none
  | _ => none

/-- Embeds `expr.Expr` (google.golang.org/genproto type used for binding
conditions): expression plus optional title/description text. -/
structure CondExpr where
  expression : Str
  title : Str := []
  description : Str := []
deriving DecidableEq

/-- Embeds `iampb.Binding`: a role, a member list, and an optional
condition (`none` models a nil `*expr.Expr`). -/
structure Binding where
  role : Str
  members : List Str
  condition : Option CondExpr := none
deriving DecidableEq

/-- Embeds `iampb.Policy` (version, bindings, etag).  `AuditConfigs` is
carried opaquely by the source and never consulted by the decision code,
so it is omitted from the embedding. -/
structure Policy where
  version : Int
  bindings : List Binding
  etag : Str := []
deriving DecidableEq

/-- Embeds the `Storage` struct of storage.go: the three maps guarded by
the readers-writer lock (policies, groups, customRoles).  The
`projects`/`serviceAccounts` maps are untouched by the claims and
omitted.  The field `allowUnknownRoles` is Modelled from the spec: the
strict/compat switch (`Storage.SetAllowUnknownRoles`, called by
`cmd/server/main.go` and exercised by `strict_mode_test.go`) is absent
from the storage source snapshot; per spec §4.1 the wildcard tier runs
only in compat mode and strict is the default. -/
structure Storage where
  policies : List (Str × Policy)
  groups : List (Str × List Str)
  customRoles : List (Str × List Str)
  allowUnknownRoles : Bool
deriving DecidableEq

/-- Embeds `NewStorage()`: empty maps.  `allowUnknownRoles := false` is
Modelled from the spec (strict mode is the default; the
`--allow-unknown-roles` flag in main.go defaults to false). -/
def emptyStorage : Storage :=
  { policies := [], groups := [], customRoles := [], allowUnknownRoles := false }

/-- Modelled from the spec: `Storage.SetAllowUnknownRoles` (missing from
the storage source snapshot; referenced by its tests and callers) sets
the compat-mode flag. -/
def setAllowUnknownRoles (s : Storage) (allow : Bool) : Storage :=
  { s with allowUnknownRoles := allow }

/-- Embeds `EvalContext` of cel.go. -/
structure EvalContext where
  resourceName : Str
  resourceType : Str
  requestTime : GoTime

/-- Embeds `evalStartsWith` of cel.go: extract the text between the first
and last double quote and test it as a prefix of the resource name.
Reason strings are abbreviated relative to the Go `fmt.Sprintf` text. -/
def evalStartsWith (e resourceName : Str) : Bool × Str :=
  match firstIdx e '"', lastIdx e '"' with
  | some a, some b =>
    if a ≥ b then (false, str "invalid startsWith syntax")
    else
      let pre := goSlice e (a + 1) b
      if strStartsWith resourceName pre then
        (true, str "resource.name starts with the literal")
      else
        (false, str "resource.name does not start with the literal")
  | _, _ => (false, str "invalid startsWith syntax")

/-- Embeds `evalResourceType` of cel.go: extract the text between the
first and last double quote and compare it with the context type. -/
def evalResourceType (e resourceType : Str) : Bool × Str :=
  match firstIdx e '"', lastIdx e '"' with
  | some a, some b =>
    if a ≥ b then (false, str "invalid resource.type syntax")
    else
      let expectedType := goSlice e (a + 1) b
      if resourceType = expectedType then
        (true, str "resource.type matches the literal")
      else
        (false, str "resource.type does not match the literal")
  | _, _ => (false, str "invalid resource.type syntax")

/-- Embeds `evalRequestTime` of cel.go: find `timestamp("`, read the
literal up to the next quote, parse it as RFC3339, and compare with `<`
or `>` according to which comparison character occurs in the text. -/
def evalRequestTime (e : Str) (requestTime : GoTime) : Bool × Str :=
  match firstIdxSub e (str "timestamp(\"") with
  | none => (false, str "invalid request.time syntax")
  | some i =>
    let a := i + (str "timestamp(\"").length
    match firstIdx (e.drop a) '"' with
    | none => (false, str "invalid timestamp format")
    | some j =>
      let ts := goSlice e a (a + j)
      match parseRFC3339 ts with
      | none => (false, str "invalid timestamp: " ++ ts)
      | some t =>
        if strContains e (str "<") then
          if requestTime < t then (true, str "request.time before the literal")
          else (false, str "request.time not before the literal")
        else if strContains e (str ">") then
          if requestTime > t then (true, str "request.time after the literal")
          else (false, str "request.time not after the literal")
        else (false, str "request.time expression must use < or >")

/-- Embeds `evaluateCondition` of cel.go: nil condition and empty or
whitespace-only expressions are vacuously true; otherwise dispatch by
substring presence to the three evaluators, in source order; anything
else is false with an unsupported-expression reason. -/
def evaluateCondition (condition : Option CondExpr) (ctx : EvalContext) : Bool × Str :=
  match condition with
  | none => (true, str "no condition")
  | some cond =>
    let e := trimSpace cond.expression
    if e = [] then (true, str "empty condition")
    else if strContains e (str "resource.name.startsWith") then
      evalStartsWith e ctx.resourceName
    else if strContains e (str "resource.type") then
      evalResourceType e ctx.resourceType
    else if strContains e (str "request.time") then
      evalRequestTime e ctx.requestTime
    else (false, str "unsupported CEL expression: " ++ e)

/-- Embeds `extractResourceType` of cel.go: substring-based mapping from
the resource path to a resource-type tag. -/
def extractResourceType (resourceName : Str) : Str :=
  if strContains resourceName (str "/secrets/") then str "SECRET"
  else if strContains resourceName (str "/cryptoKeys/") then str "CRYPTO_KEY"
  else if strContains resourceName (str "/keyRings/") then str "KEY_RING"
  else str "UNKNOWN"

/-- Models `generateEtag` of storage.go (json.Marshal, SHA-256, base64):
the digest pipeline is modelled as a deterministic serialization of the
full policy record (version, bindings with members and conditions, and
the etag field as it stands at hashing time, exactly as `json.Marshal`
sees it).  The claims under verification rely only on the etag being a
pure function of the policy, not on the digest value. -/
def generateEtag (p : Policy) : Str :=
  let serCond : Option CondExpr → Str := fun c =>
    match c with
    | none => str "null"
    | some e => str "expr(" ++ e.expression ++ str "," ++ e.title ++ str ","
        ++ e.description ++ str ")"
  let serBinding : Binding → Str := fun b =>
    str "b(" ++ b.role ++ str ";" ++ List.intercalate (str ",") b.members
      ++ str ";" ++ serCond b.condition ++ str ")"
  str "v=" ++ (toString p.version).data ++ str ";etag=" ++ p.etag ++ str ";"
    ++ List.intercalate (str "|") (p.bindings.map serBinding)

/-- Embeds `SetIamPolicy` of storage.go: normalize version 0 to 1; at
version 3 reject any binding whose condition is present with an empty
expression; otherwise stamp the etag and store.  The Go method mutates
`s.policies` in place; the embedding returns the post-state together
with the result, and on the error path the post-state equals the input
state, exactly as the source returns before touching the map. -/
def setIamPolicy (s : Storage) (resource : Str) (policy : Policy) :
    Storage × Except Str Policy :=
  let p1 := if policy.version = 0 then { policy with version := 1 } else policy
  if p1.version = 3 ∧ p1.bindings.any (fun b =>
      match b.condition with
      | some c => decide (c.expression = [])
      | none => false) then
    (s, Except.error (str "condition expression cannot be empty when version is 3"))
  else
    let p2 := { p1 with etag := generateEtag p1 }
    ({ s with policies := insertA s.policies resource p2 }, Except.ok p2)

/-- Embeds `LoadPolicies` of storage.go: for each entry, normalize
version 0 to 1, stamp the etag, and store; no other validation.  The Go
map being ranged over is embedded as a list of key-distinct entries. -/
def loadPolicies (s : Storage) : List (Str × Policy) → Storage
  | [] => s
  | entry :: rest =>
    let p1 := if entry.2.version = 0 then { entry.2 with version := 1 } else entry.2
    let p2 := { p1 with etag := generateEtag p1 }
    loadPolicies { s with policies := insertA s.policies entry.1 p2 } rest

/-- Embeds `LoadGroups` of storage.go: wholesale replacement. -/
def loadGroups (s : Storage) (groups : List (Str × List Str)) : Storage :=
  { s with groups := groups }

/-- Embeds `LoadCustomRoles` of storage.go: wholesale replacement. -/
def loadCustomRoles (s : Storage) (roles : List (Str × List Str)) : Storage :=
  { s with customRoles := roles }

/-- Embeds `GetIamPolicy` of storage.go: the stored policy, or a fresh
empty version-1 policy when the resource has none (never an error). -/
def getIamPolicy (s : Storage) (resource : Str) : Policy :=
  match lookupA s.policies resource with
  | some p => p
  | none => { version := 1, bindings := [], etag := [] }

/-- Embeds the `builtInRoles` literal map of `getRolePermissions` in
storage.go, verbatim. -/
def builtInRolesList : List (Str × List Str) :=
  [ (str "roles/owner",
      [ str "secretmanager.secrets.get",
        str "secretmanager.secrets.create",
        str "secretmanager.secrets.update",
        str "secretmanager.secrets.delete",
        str "secretmanager.secrets.list",
        str "secretmanager.versions.add",
        str "secretmanager.versions.get",
        str "secretmanager.versions.access",
        str "secretmanager.versions.list",
        str "secretmanager.versions.enable",
        str "secretmanager.versions.disable",
        str "secretmanager.versions.destroy",
        str "cloudkms.keyRings.create",
        str "cloudkms.keyRings.get",
        str "cloudkms.keyRings.list",
        str "cloudkms.cryptoKeys.create",
        str "cloudkms.cryptoKeys.get",
        str "cloudkms.cryptoKeys.list",
        str "cloudkms.cryptoKeys.update",
        str "cloudkms.cryptoKeys.encrypt",
        str "cloudkms.cryptoKeys.decrypt",
        str "cloudkms.cryptoKeyVersions.create",
        str "cloudkms.cryptoKeyVersions.get",
        str "cloudkms.cryptoKeyVersions.list",
        str "cloudkms.cryptoKeyVersions.update",
        str "cloudkms.cryptoKeyVersions.destroy" ]),
    (str "roles/editor",
      [ str "secretmanager.secrets.get",
        str "secretmanager.secrets.create",
        str "secretmanager.secrets.update",
        str "secretmanager.secrets.list",
        str "secretmanager.versions.add",
        str "secretmanager.versions.get",
        str "secretmanager.versions.access",
        str "secretmanager.versions.list",
        str "secretmanager.versions.enable",
        str "secretmanager.versions.disable",
        str "cloudkms.keyRings.get",
        str "cloudkms.keyRings.list",
        str "cloudkms.cryptoKeys.create",
        str "cloudkms.cryptoKeys.get",
        str "cloudkms.cryptoKeys.list",
        str "cloudkms.cryptoKeys.update",
        str "cloudkms.cryptoKeys.encrypt",
        str "cloudkms.cryptoKeys.decrypt",
        str "cloudkms.cryptoKeyVersions.create",
        str "cloudkms.cryptoKeyVersions.get",
        str "cloudkms.cryptoKeyVersions.list",
        str "cloudkms.cryptoKeyVersions.update" ]),
    (str "roles/viewer",
      [ str "secretmanager.secrets.get",
        str "secretmanager.secrets.list",
        str "secretmanager.versions.get",
        str "secretmanager.versions.list",
        str "cloudkms.keyRings.get",
        str "cloudkms.keyRings.list",
        str "cloudkms.cryptoKeys.get",
        str "cloudkms.cryptoKeys.list",
        str "cloudkms.cryptoKeyVersions.get",
        str "cloudkms.cryptoKeyVersions.list" ]),
    (str "roles/secretmanager.admin",
      [ str "secretmanager.secrets.get",
        str "secretmanager.secrets.create",
        str "secretmanager.secrets.update",
        str "secretmanager.secrets.delete",
        str "secretmanager.secrets.list",
        str "secretmanager.versions.add",
        str "secretmanager.versions.get",
        str "secretmanager.versions.access",
        str "secretmanager.versions.list",
        str "secretmanager.versions.enable",
        str "secretmanager.versions.disable",
        str "secretmanager.versions.destroy" ]),
    (str "roles/secretmanager.secretAccessor",
      [ str "secretmanager.versions.access" ]),
    (str "roles/secretmanager.secretVersionManager",
      [ str "secretmanager.versions.add",
        str "secretmanager.versions.get",
        str "secretmanager.versions.list",
        str "secretmanager.versions.enable",
        str "secretmanager.versions.disable",
        str "secretmanager.versions.destroy" ]),
    (str "roles/cloudkms.admin",
      [ str "cloudkms.keyRings.create",
        str "cloudkms.keyRings.get",
        str "cloudkms.keyRings.list",
        str "cloudkms.cryptoKeys.create",
        str "cloudkms.cryptoKeys.get",
        str "cloudkms.cryptoKeys.list",
        str "cloudkms.cryptoKeys.update",
        str "cloudkms.cryptoKeys.encrypt",
        str "cloudkms.cryptoKeys.decrypt",
        str "cloudkms.cryptoKeyVersions.create",
        str "cloudkms.cryptoKeyVersions.get",
        str "cloudkms.cryptoKeyVersions.list",
        str "cloudkms.cryptoKeyVersions.update",
        str "cloudkms.cryptoKeyVersions.destroy" ]),
    (str "roles/cloudkms.cryptoKeyEncrypterDecrypter",
      [ str "cloudkms.cryptoKeys.encrypt",
        str "cloudkms.cryptoKeys.decrypt" ]),
    (str "roles/cloudkms.viewer",
      [ str "cloudkms.keyRings.get",
        str "cloudkms.keyRings.list",
        str "cloudkms.cryptoKeys.get",
        str "cloudkms.cryptoKeys.list",
        str "cloudkms.cryptoKeyVersions.get",
        str "cloudkms.cryptoKeyVersions.list" ]) ]

/-- Embeds `wildcardRolePermissions` of storage.go: a role beginning
with `roles/` whose remaining text contains (as a substring,
`strings.Contains`) the first dot-token of the queried permission is
treated as granting exactly that permission. -/
def wildcardRolePermissions (role permission : Str) : Option (List Str) :=
  if strStartsWith role (str "roles/") then
    let roleName := strTrimLead role (str "roles/")
    let permSvc := (splitOnChar permission '.').headD []
    if strContains roleName permSvc then some [permission] else none
  else none

/-- Embeds `getRolePermissions` of storage.go: custom roles first, then
the built-in catalog, then the wildcard fallback.  `none` models the
`(nil, false)` return.  The guard on `allowUnknownRoles` around the
wildcard tier is Modelled from the spec (§4.1 step 3 runs only in compat
mode): the gated version of this function is absent from the storage
source snapshot, which is exercised by `strict_mode_test.go`. -/
def getRolePermissions (s : Storage) (role permission : Str) : Option (List Str) :=
  match lookupA s.customRoles role with
  | some perms => some perms
  | none =>
    match lookupA builtInRolesList role with
    | some perms => some perms
    | none =>
      if s.allowUnknownRoles then wildcardRolePermissions role permission
      else none

/-- Embeds `principalMatches` of storage.go: byte-exact equality, the
`allUsers`/`allAuthenticatedUsers` sentinels, then `group:` members with
direct members and exactly one further level of `group:` nesting. -/
def principalMatches (s : Storage) (principal member : Str) : Bool :=
  if principal = member then true
  else if member = str "allUsers" ∨ member = str "allAuthenticatedUsers" then true
  else if strStartsWith member (str "group:") then
    match lookupA s.groups (strTrimLead member (str "group:")) with
    | none => false
    | some groupMembers =>
      groupMembers.any (fun gm =>
        decide (gm = principal) ||
        (strStartsWith gm (str "group:") &&
          match lookupA s.groups (strTrimLead gm (str "group:")) with
          | none => false
          | some nested => nested.any (fun nm => decide (nm = principal))))
  else false

/-- Embeds the empty-principal loop of `hasPermission` in storage.go:
allow as soon as some binding's role expands to a set containing the
permission, with no member check. -/
def hasPermNoPrincipal (s : Storage) : List Binding → Str → Bool × Str
  | [], _ => (false, str "no role grants permission (no principal provided)")
  | b :: rest, permission =>
    match getRolePermissions s b.role permission with
    | none => hasPermNoPrincipal s rest permission
    | some perms =>
      if permission ∈ perms then (true, str "matched role (no principal check)")
      else hasPermNoPrincipal s rest permission

/-- Embeds the member loop of `hasPermission` in storage.go for one
binding: at the first member matching the principal, a nil condition
returns allow, a present condition is evaluated — false short-circuits
the whole decision to deny, true returns allow.  `none` models falling
through to the next binding. -/
def matchMembers (s : Storage) (b : Binding) (principal : Str) (ctx : EvalContext) :
    List Str → Option (Bool × Str)
  | [] => none
  | member :: rest =>
    if principalMatches s principal member then
      match b.condition with
      | some cond =>
        let r := evaluateCondition (some cond) ctx
        if r.1 = false then some (false, str "condition failed: " ++ r.2)
        else some (true, str "matched binding with condition: " ++ r.2)
      | none => some (true, str "matched binding")
    else matchMembers s b principal ctx rest

/-- Embeds the binding loop of `hasPermission` in storage.go for a
non-empty principal: skip bindings whose role does not resolve or whose
expansion lacks the permission, then run the member loop. -/
def hasPermBindings (s : Storage) (bs : List Binding) (principal permission : Str)
    (ctx : EvalContext) : Bool × Str :=
  match bs with
  | [] => (false, str "no matching binding found for principal")
  | b :: rest =>
    match getRolePermissions s b.role permission with
    | none => hasPermBindings s rest principal permission ctx
    | some perms =>
      if permission ∈ perms then
        match matchMembers s b principal ctx b.members with
        | some res => res
        | none => hasPermBindings s rest principal permission ctx
      else hasPermBindings s rest principal permission ctx

/-- Embeds `hasPermission` of storage.go: the empty-principal loop or
the member-checking loop.  The `trace` argument only drives logging in
the source and is dropped. -/
def hasPermission (s : Storage) (policy : Policy) (principal permission : Str)
    (ctx : EvalContext) : Bool × Str :=
  if principal = [] then hasPermNoPrincipal s policy.bindings permission
  else hasPermBindings s policy.bindings principal permission ctx

/-- Embeds the parent-walking loop of `resolvePolicy` in storage.go:
while more than two segments remain, strip the trailing two, re-join,
and look up. -/
def resolveWalk (pols : List (Str × Policy)) (parts : List Str) : Option Policy :=
  if _h : 2 < parts.length then
    let parts2 := parts.take (parts.length - 2)
    match lookupA pols (joinSegs parts2) with
    | some p => some p
    | none => resolveWalk pols parts2
  else none
termination_by parts.length
decreasing_by simp [List.length_take]; omega

/-- Embeds `resolvePolicy` of storage.go: exact match first, then the
parent walk on the slash-split segments. -/
def resolvePolicy (s : Storage) (resource : Str) : Option Policy :=
  match lookupA s.policies resource with
  | some p => some p
  | none => resolveWalk s.policies (splitOnChar resource '/')

/-- Embeds `TestIamPermissions` of storage.go: resolve the policy (no
policy denies everything), build the evaluation context, and keep the
permissions for which `hasPermission` allows.  The request instant
captured by `time.Now()` in the source is the explicit `now` argument;
the `trace` flag only drives logging and is dropped. -/
def testIamPermissions (s : Storage) (resource principal : Str)
    (permissions : List Str) (now : GoTime) : List Str :=
  match resolvePolicy s resource with
  | none => []
  | some policy =>
    let ctx : EvalContext :=
      { resourceName := resource,
        resourceType := extractResourceType resource,
        requestTime := now }
    permissions.filter (fun perm => (hasPermission s policy principal perm ctx).1)

/-- Whether a binding's role, expanded by `getRolePermissions`, grants a
permission (the skip test of the binding loop in `hasPermission`). -/
def bindingGrants (s : Storage) (b : Binding) (perm : Str) : Bool :=
  match getRolePermissions s b.role perm with
  | none => false
  | some perms => decide (perm ∈ perms)

/-- Whether a binding both grants the permission and has a member
matching the principal (the conditions under which the binding loop of
`hasPermission` reaches the condition check). -/
def bindingApplies (s : Storage) (b : Binding) (principal perm : Str) : Bool :=
  bindingGrants s b perm && b.members.any (fun mem => principalMatches s principal mem)

/-- Spec-side definition: the §6.5 KMS permission universe, transcribed
from the spec for comparison with the built-in catalog. -/
def specKmsUniverse : List Str :=
  [ str "cloudkms.keyRings.create",
    str "cloudkms.keyRings.get",
    str "cloudkms.keyRings.list",
    str "cloudkms.cryptoKeys.create",
    str "cloudkms.cryptoKeys.get",
    str "cloudkms.cryptoKeys.list",
    str "cloudkms.cryptoKeys.update",
    str "cloudkms.cryptoKeys.encrypt",
    str "cloudkms.cryptoKeys.decrypt",
    str "cloudkms.cryptoKeyVersions.create",
    str "cloudkms.cryptoKeyVersions.get",
    str "cloudkms.cryptoKeyVersions.list",
    str "cloudkms.cryptoKeyVersions.update",
    str "cloudkms.cryptoKeyVersions.destroy" ]

/-- Spec-side definition: an expression is an instance of one of the
four recognized condition patterns of spec §4.3, transcribed from the
spec's grammar table for comparison with the evaluator. -/
def specRecognizedExpr (e : Str) : Prop :=
  (∃ p, e = str "resource.name.startsWith(\"" ++ p ++ str "\")") ∨
  (∃ t, e = str "resource.type == \"" ++ t ++ str "\"") ∨
  (∃ t, e = str "request.time < timestamp(\"" ++ t ++ str "\")") ∨
  (∃ t, e = str "request.time > timestamp(\"" ++ t ++ str "\")")

/-- C4 witness policy: a version-0 policy used to instantiate the
amended bulk-load theorem. -/
def c4Pol : Policy :=
  { version := 0,
    bindings := [ { role := str "roles/viewer",
                    members := [str "user:dev@example.com"], condition := none } ],
    etag := [] }

/-- C9 witness input: a version-0 empty policy. -/
def c9Input : Policy := { version := 0, bindings := [], etag := [] }

/-- C9 witness stored policy: the normalized, etag-stamped form of
`c9Input`. -/
def c9Stored : Policy :=
  { version := 1, bindings := [],
    etag := generateEtag { version := 1, bindings := [], etag := [] } }

/-- C10 witness policy: a version-3 policy with a present-but-empty
condition expression, which `SetIamPolicy` rejects. -/
def c10Bad : Policy :=
  { version := 3,
    bindings := [ { role := str "roles/owner", members := [str "user:a@x"],
                    condition := some { expression := [], title := [], description := [] } } ],
    etag := [] }

theorem neConsHead {x y : Char} {xs ys : List Char} (hxy : x ≠ y) : x :: xs ≠ y :: ys := by
  intro h
  injection h with h1 _
  exact hxy h1


theorem lookupA_insertA {β : Type} (l : List (Str × β)) (k key : Str) (v : β) :
    lookupA (insertA l k v) key = if k = key then some v else lookupA l key := by
  induction l with
  | nil => simp [insertA, lookupA]
  | cons hd tl ih =>
    obtain ⟨k2, v2⟩ := hd
    simp only [insertA]
    by_cases h2 : k2 = k
    · subst h2
      by_cases h3 : k2 = key
      · simp [lookupA, h3]
      · simp [lookupA, h3]
    · simp only [if_neg h2, lookupA]
      by_cases h3 : k2 = key
      · subst h3
        have hkk : ¬ k = k2 := fun h => h2 h.symm
        simp [if_neg hkk]
      · simp [if_neg h3, ih]

theorem splitOnChar_ne_nil (g : Str) (c : Char) : splitOnChar g c ≠ [] := by
  cases g with
  | nil => simp [splitOnChar]
  | cons x xs =>
    simp only [splitOnChar]
    split
    · simp
    · split <;> simp

theorem splitOnChar_nosep (c : Char) (g : Str) (hg : c ∉ g) : splitOnChar g c = [g] := by
  induction g with
  | nil => rfl
  | cons x xs ih =>
    have hx : x ≠ c := fun h => hg (h ▸ List.mem_cons_self x xs)
    have hxs : c ∉ xs := fun h => hg (List.mem_cons_of_mem x h)
    simp only [splitOnChar, ih hxs, if_neg hx]

theorem splitOnChar_sep (c : Char) (g rest : Str) (hg : c ∉ g) :
    splitOnChar (g ++ c :: rest) c = g :: splitOnChar rest c := by
  induction g with
  | nil =>
    simp only [List.nil_append, splitOnChar, if_pos rfl]
    cases h : splitOnChar rest c with
    | nil => exact absurd h (splitOnChar_ne_nil rest c)
    | cons a l => simp [h]
  | cons x xs ih =>
    have hx : x ≠ c := fun h => hg (h ▸ List.mem_cons_self x xs)
    have hxs : c ∉ xs := fun h => hg (List.mem_cons_of_mem x h)
    rw [List.cons_append]
    simp only [splitOnChar]
    rw [ih hxs]
    simp [hx]

theorem splitJoin (xs : List Str) (hne : xs ≠ []) (hs : ∀ x ∈ xs, '/' ∉ x) :
    splitOnChar (joinSegs xs) '/' = xs := by
  induction xs with
  | nil => exact absurd rfl hne
  | cons a tl ih =>
    cases tl with
    | nil =>
      simp only [joinSegs]
      exact splitOnChar_nosep '/' a (hs a (List.mem_cons_self a []))
    | cons b rest =>
      have ha : '/' ∉ a := hs a (List.mem_cons_self a _)
      have htl : ∀ x ∈ b :: rest, '/' ∉ x := fun x hx => hs x (List.mem_cons_of_mem a hx)
      simp only [joinSegs, splitOnChar_sep '/' a _ ha, ih (by simp) htl]

theorem resolveWalk_finds (pols : List (Str × Policy)) (a b : Str) (q : Policy) :
    ∀ n (ext : List Str), ext.length = n → n % 2 = 0 →
    ∀ m, m % 2 = 0 → m + 2 ≤ n →
    lookupA pols (joinSegs (a :: b :: ext.take m)) = some q →
    (∀ m2, m2 % 2 = 0 → m < m2 → m2 + 2 ≤ n →
      lookupA pols (joinSegs (a :: b :: ext.take m2)) = none) →
    resolveWalk pols (a :: b :: ext) = some q := by
  intro n
  induction n using Nat.strong_induction_on with
  | _ n ih =>
    intro ext hlen heven m hm hmle hstored habove
    obtain ⟨k, rfl⟩ : ∃ k, n = k + 2 := ⟨n - 2, by omega⟩
    rw [resolveWalk]
    rw [dif_pos (by simp [hlen])]
    have htake : (a :: b :: ext).take ((a :: b :: ext).length - 2) = a :: b :: ext.take k := by
      simp [hlen]
    simp only [htake]
    by_cases hk : m = k
    · subst hk
      rw [hstored]
    · have hmk : m < k := by omega
      have hkeven : k % 2 = 0 := by omega
      rw [habove k hkeven hmk (by omega)]
      have hklen : (ext.take k).length = k := by
        rw [List.length_take]
        omega
      refine ih k (by omega) (ext.take k) hklen hkeven m hm (by omega) ?_ ?_
      · rw [List.take_take]
        have : min m k = m := by omega
        rw [this]
        exact hstored
      · intro m2 h1 h2 h3
        rw [List.take_take]
        have : min m2 k = m2 := by omega
        rw [this]
        exact habove m2 h1 h2 (by omega)

theorem matchMembers_none (s : Storage) (b : Binding) (principal : Str)
    (ctx : EvalContext) (ms : List Str)
    (h : ∀ mem ∈ ms, principalMatches s principal mem = false) :
    matchMembers s b principal ctx ms = none := by
  induction ms with
  | nil => rfl
  | cons mem rest ih =>
    have hmem := h mem (List.mem_cons_self mem rest)
    simp only [matchMembers, hmem, Bool.false_eq_true, if_false]
    exact ih (fun x hx => h x (List.mem_cons_of_mem mem hx))

theorem matchMembers_cond_false (s : Storage) (b : Binding) (principal : Str)
    (ctx : EvalContext) (cond : CondExpr)
    (hcond : b.condition = some cond)
    (hfail : (evaluateCondition (some cond) ctx).1 = false) :
    ∀ ms : List Str, (∃ mem ∈ ms, principalMatches s principal mem = true) →
    matchMembers s b principal ctx ms =
      some (false, str "condition failed: " ++ (evaluateCondition (some cond) ctx).2) := by
  intro ms hms
  induction ms with
  | nil => simp at hms
  | cons mem rest ih =>
    by_cases hmem : principalMatches s principal mem = true
    · simp only [matchMembers, hmem, if_true, hcond]
      rw [if_pos hfail]
    · have hrest : ∃ x ∈ rest, principalMatches s principal x = true := by
        rcases hms with ⟨x, hx, hpx⟩
        rcases List.mem_cons.mp hx with h1 | h1
        · exact absurd (h1 ▸ hpx) hmem
        · exact ⟨x, h1, hpx⟩
      have hmem2 : principalMatches s principal mem = false := by
        cases hval : principalMatches s principal mem with
        | false => rfl
        | true => exact absurd hval hmem
      simp only [matchMembers, hmem2, Bool.false_eq_true, if_false]
      exact ih hrest

theorem hasPermBindings_cons_none (s : Storage) (b : Binding) (rest : List Binding)
    (principal perm : Str) (ctx : EvalContext)
    (h : getRolePermissions s b.role perm = none) :
    hasPermBindings s (b :: rest) principal perm ctx =
      hasPermBindings s rest principal perm ctx := by
  rw [hasPermBindings, h]

theorem hasPermBindings_cons_some (s : Storage) (b : Binding) (rest : List Binding)
    (principal perm : Str) (ctx : EvalContext) (perms : List Str)
    (h : getRolePermissions s b.role perm = some perms) :
    hasPermBindings s (b :: rest) principal perm ctx =
      if perm ∈ perms then
        match matchMembers s b principal ctx b.members with
        | some res => res
        | none => hasPermBindings s rest principal perm ctx
      else hasPermBindings s rest principal perm ctx := by
  rw [hasPermBindings, h]

theorem hasPermNoPrincipal_cons_none (s : Storage) (b : Binding) (rest : List Binding)
    (perm : Str) (h : getRolePermissions s b.role perm = none) :
    hasPermNoPrincipal s (b :: rest) perm = hasPermNoPrincipal s rest perm := by
  rw [hasPermNoPrincipal, h]

theorem hasPermNoPrincipal_cons_some (s : Storage) (b : Binding) (rest : List Binding)
    (perm : Str) (perms : List Str)
    (h : getRolePermissions s b.role perm = some perms) :
    hasPermNoPrincipal s (b :: rest) perm =
      if perm ∈ perms then (true, str "matched role (no principal check)")
      else hasPermNoPrincipal s rest perm := by
  rw [hasPermNoPrincipal, h]

theorem hasPermBindings_skip (s : Storage) (b : Binding) (rest : List Binding)
    (principal perm : Str) (ctx : EvalContext)
    (h : bindingApplies s b principal perm = false) :
    hasPermBindings s (b :: rest) principal perm ctx =
      hasPermBindings s rest principal perm ctx := by
  unfold bindingApplies bindingGrants at h
  cases hrole : getRolePermissions s b.role perm with
  | none => exact hasPermBindings_cons_none s b rest principal perm ctx hrole
  | some perms =>
    rw [hrole] at h
    rw [hasPermBindings_cons_some s b rest principal perm ctx perms hrole]
    by_cases hin : perm ∈ perms
    · have hany : b.members.any (fun m => principalMatches s principal m) = false := by
        cases hv : b.members.any (fun m => principalMatches s principal m) with
        | false => rfl
        | true =>
          rw [hv] at h
          simp [hin] at h
      have hall : ∀ mem ∈ b.members, principalMatches s principal mem = false := by
        intro mem hmem
        cases hval : principalMatches s principal mem with
        | false => rfl
        | true =>
          have : b.members.any (fun m => principalMatches s principal m) = true :=
            List.any_eq_true.mpr ⟨mem, hmem, hval⟩
          rw [this] at hany
          exact absurd hany (by simp)
      rw [if_pos hin, matchMembers_none s b principal ctx b.members hall]
    · rw [if_neg hin]

theorem hasPermBindings_preskip (s : Storage) (pre rest : List Binding)
    (principal perm : Str) (ctx : EvalContext)
    (h : ∀ b ∈ pre, bindingApplies s b principal perm = false) :
    hasPermBindings s (pre ++ rest) principal perm ctx =
      hasPermBindings s rest principal perm ctx := by
  induction pre with
  | nil => rfl
  | cons b tl ih =>
    rw [List.cons_append,
      hasPermBindings_skip s b (tl ++ rest) principal perm ctx
        (h b (List.mem_cons_self b tl))]
    exact ih (fun x hx => h x (List.mem_cons_of_mem b hx))

theorem hasPermNoPrincipal_true_iff (s : Storage) (bs : List Binding) (perm : Str) :
    (hasPermNoPrincipal s bs perm).1 = true ↔
      ∃ b ∈ bs, ∃ rp, getRolePermissions s b.role perm = some rp ∧ perm ∈ rp := by
  induction bs with
  | nil => simp [hasPermNoPrincipal]
  | cons b rest ih =>
    cases hrole : getRolePermissions s b.role perm with
    | none =>
      rw [hasPermNoPrincipal_cons_none s b rest perm hrole, ih]
      constructor
      · rintro ⟨b2, hb2, hrest⟩
        exact ⟨b2, List.mem_cons_of_mem b hb2, hrest⟩
      · rintro ⟨b2, hb2, rp, hrp, hmem⟩
        rcases List.mem_cons.mp hb2 with h1 | h1
        · rw [h1] at hrp
          rw [hrp] at hrole
          cases hrole
        · exact ⟨b2, h1, rp, hrp, hmem⟩
    | some perms =>
      rw [hasPermNoPrincipal_cons_some s b rest perm perms hrole]
      by_cases hin : perm ∈ perms
      · rw [if_pos hin]
        constructor
        · intro _
          exact ⟨b, List.mem_cons_self b rest, perms, hrole, hin⟩
        · intro _
          rfl
      · rw [if_neg hin, ih]
        constructor
        · rintro ⟨b2, hb2, hrest⟩
          exact ⟨b2, List.mem_cons_of_mem b hb2, hrest⟩
        · rintro ⟨b2, hb2, rp, hrp, hmem⟩
          rcases List.mem_cons.mp hb2 with h1 | h1
          · rw [h1] at hrp
            rw [hrp] at hrole
            cases hrole
            exact absurd hmem hin
          · exact ⟨b2, h1, rp, hrp, hmem⟩

/-- C1 counterexample: the claim predicts that in compat mode a role
outside both catalogs grants the queried permission only when the first
dot-token of the text after `roles/` equals the permission's first
dot-token.  For role `roles/x.secretmanager` and permission
`secretmanager.secrets.get` the first tokens differ (`x` versus
`secretmanager`), yet the source's `strings.Contains` test grants the
permission, so the claim as stated is false. -/
theorem c1_counterexample :
    lookupA emptyStorage.customRoles (str "roles/x.secretmanager") = none ∧
    lookupA builtInRolesList (str "roles/x.secretmanager") = none ∧
    (splitOnChar (strTrimLead (str "roles/x.secretmanager") (str "roles/")) '.').headD []
      ≠ (splitOnChar (str "secretmanager.secrets.get") '.').headD [] ∧
    getRolePermissions (setAllowUnknownRoles emptyStorage true)
      (str "roles/x.secretmanager") (str "secretmanager.secrets.get")
      = some [str "secretmanager.secrets.get"] := by
  refine ⟨by decide, by decide, by decide, by decide⟩

/-- C1 (amended): for every role found in neither the custom nor the
built-in catalog, strict mode grants no permissions, and compat mode
grants exactly the queried permission precisely when the role id begins
with `roles/` and the remaining text contains the permission's first
dot-token as a substring (the wildcard tier's `strings.Contains`
criterion, which is weaker than first-token equality). -/
theorem c1_wildcard_tier (s : Storage) (role perm : Str)
    (hcustom : lookupA s.customRoles role = none)
    (hbuiltin : lookupA builtInRolesList role = none) :
    (s.allowUnknownRoles = false → getRolePermissions s role perm = none) ∧
    (s.allowUnknownRoles = true →
      getRolePermissions s role perm =
        if (str "roles/" <+: role) ∧
           (((splitOnChar perm '.').headD []) <:+: strTrimLead role (str "roles/"))
        then some [perm] else none) := by
  unfold getRolePermissions
  rw [hcustom, hbuiltin]
  constructor
  · intro hmode
    rw [hmode]
    rfl
  · intro hmode
    rw [hmode]
    show wildcardRolePermissions role perm = _
    unfold wildcardRolePermissions
    by_cases hp : (str "roles/" <+: role)
    · have hsw : strStartsWith role (str "roles/") = true := decide_eq_true hp
      rw [if_pos hsw]
      by_cases hin : (((splitOnChar perm '.').headD []) <:+: strTrimLead role (str "roles/"))
      · have hc : strContains (strTrimLead role (str "roles/"))
            ((splitOnChar perm '.').headD []) = true := decide_eq_true hin
        rw [if_pos hc, if_pos ⟨hp, hin⟩]
      · have hc : strContains (strTrimLead role (str "roles/"))
            ((splitOnChar perm '.').headD []) = false :=
          decide_eq_false hin
        rw [if_neg (by simp only [hc]; exact Bool.false_ne_true),
          if_neg (fun hand => hin hand.2)]
    · have hsw : strStartsWith role (str "roles/") = false := decide_eq_false hp
      rw [if_neg (by simp only [hsw]; exact Bool.false_ne_true),
        if_neg (fun hand => hp hand.1)]

/-- C1 witness: concrete instantiation of the amended wildcard-tier
theorem at role `roles/secretmanager.custom` and permission
`secretmanager.secrets.get`, in strict and in compat mode. -/
theorem c1_witness :
    getRolePermissions emptyStorage (str "roles/secretmanager.custom")
        (str "secretmanager.secrets.get") = none ∧
    getRolePermissions (setAllowUnknownRoles emptyStorage true)
        (str "roles/secretmanager.custom") (str "secretmanager.secrets.get") =
      if (str "roles/" <+: str "roles/secretmanager.custom") ∧
         (((splitOnChar (str "secretmanager.secrets.get") '.').headD [])
           <:+: strTrimLead (str "roles/secretmanager.custom") (str "roles/"))
      then some [str "secretmanager.secrets.get"] else none := by
  constructor
  · exact (c1_wildcard_tier emptyStorage _ _ (by decide) (by decide)).1 rfl
  · exact (c1_wildcard_tier (setAllowUnknownRoles emptyStorage true) _ _
      (by decide) (by decide)).2 rfl

/-- C2: if no earlier binding both grants the permission and matches the
principal, and a binding's role grants the requested permission, some
member matches the principal, and its condition evaluates to false, then
the decision is deny — regardless of the bindings that follow, even
unconditional ones granting the permission to the same principal. -/
theorem c2_condition_short_circuit (s : Storage) (pol : Policy) (pre post : List Binding)
    (b : Binding) (principal perm : Str) (ctx : EvalContext) (cond : CondExpr)
    (hbind : pol.bindings = pre ++ b :: post)
    (hprincipal : principal ≠ [])
    (hpre : ∀ b2 ∈ pre, bindingApplies s b2 principal perm = false)
    (hgrants : bindingGrants s b perm = true)
    (hmatch : b.members.any (fun mem => principalMatches s principal mem) = true)
    (hcond : b.condition = some cond)
    (hfail : (evaluateCondition (some cond) ctx).1 = false) :
    (hasPermission s pol principal perm ctx).1 = false := by
  unfold hasPermission
  rw [if_neg hprincipal, hbind,
    hasPermBindings_preskip s pre (b :: post) principal perm ctx hpre]
  obtain ⟨perms, hrole, hin⟩ :
      ∃ perms, getRolePermissions s b.role perm = some perms ∧ perm ∈ perms := by
    unfold bindingGrants at hgrants
    cases hr : getRolePermissions s b.role perm with
    | none =>
      rw [hr] at hgrants
      cases hgrants
    | some perms =>
      rw [hr] at hgrants
      exact ⟨perms, rfl, of_decide_eq_true hgrants⟩
  rw [hasPermBindings_cons_some s b post principal perm ctx perms hrole, if_pos hin]
  obtain ⟨mem, hmem, hpm⟩ := List.any_eq_true.mp hmatch
  rw [matchMembers_cond_false s b principal ctx cond hcond hfail b.members ⟨mem, hmem, hpm⟩]

/-- C2 witness: a binding of `roles/viewer` to `user:dev@example.com`
with condition `resource.type == "CRYPTO_KEY"` evaluated on a SECRET
resource denies `secretmanager.secrets.get`, despite a later
unconditional `roles/viewer` binding for `allUsers`. -/
theorem c2_witness :
    (hasPermission emptyStorage
      { version := 3,
        bindings :=
          [ { role := str "roles/viewer", members := [str "user:dev@example.com"],
              condition := some { expression := str "resource.type == \"CRYPTO_KEY\"",
                                  title := [], description := [] } },
            { role := str "roles/viewer", members := [str "allUsers"],
              condition := none } ] }
      (str "user:dev@example.com") (str "secretmanager.secrets.get")
      { resourceName := str "projects/p/secrets/s", resourceType := str "SECRET",
        requestTime := 0 }).1 = false := by
  exact c2_condition_short_circuit emptyStorage _ []
    [ { role := str "roles/viewer", members := [str "allUsers"], condition := none } ]
    { role := str "roles/viewer", members := [str "user:dev@example.com"],
      condition := some { expression := str "resource.type == \"CRYPTO_KEY\"",
                          title := [], description := [] } }
    (str "user:dev@example.com") (str "secretmanager.secrets.get")
    { resourceName := str "projects/p/secrets/s", resourceType := str "SECRET",
      requestTime := 0 }
    { expression := str "resource.type == \"CRYPTO_KEY\"", title := [], description := [] }
    rfl (by decide) (by intro b2 h; cases h) (by decide) (by decide) rfl (by decide)

theorem principalMatches_self (s : Storage) (p : Str) :
    principalMatches s p p = true := by
  unfold principalMatches
  rw [if_pos rfl]

theorem matchMembers_uncond (s : Storage) (b : Binding) (principal : Str)
    (ctx : EvalContext)
    (hcond : b.condition = none) :
    ∀ ms : List Str, (∃ mem ∈ ms, principalMatches s principal mem = true) →
    ∃ reason, matchMembers s b principal ctx ms = some (true, reason) := by
  intro ms hms
  induction ms with
  | nil => simp at hms
  | cons mem rest ih =>
    by_cases hmem : principalMatches s principal mem = true
    · refine ⟨str "matched binding", ?_⟩
      simp only [matchMembers, hmem, if_true, hcond]
    · have hrest : ∃ x ∈ rest, principalMatches s principal x = true := by
        rcases hms with ⟨x, hx, hpx⟩
        rcases List.mem_cons.mp hx with h1 | h1
        · exact absurd (h1 ▸ hpx) hmem
        · exact ⟨x, h1, hpx⟩
      have hmem2 : principalMatches s principal mem = false := by
        cases hval : principalMatches s principal mem with
        | false => rfl
        | true => exact absurd hval hmem
      simp only [matchMembers, hmem2, Bool.false_eq_true, if_false]
      exact ih hrest

/-- C3 counterexample: the source's built-in list for
`roles/cloudkms.admin` does contain `cloudkms.keyRings.create`
(part_005 line 310), and a principal bound to that role is allowed that
permission by TestIamPermissions — the claim says the role grants
everything except it and that the decision is deny. -/
theorem c3_counterexample :
    str "cloudkms.keyRings.create"
      ∈ (lookupA builtInRolesList (str "roles/cloudkms.admin")).getD [] ∧
    str "cloudkms.keyRings.create" ∈ testIamPermissions
      { policies :=
          [ (str "projects/t",
             { version := 1,
               bindings := [ { role := str "roles/cloudkms.admin",
                               members := [str "user:a@x"], condition := none } ],
               etag := [] }) ],
        groups := [], customRoles := [], allowUnknownRoles := false }
      (str "projects/t") (str "user:a@x") [str "cloudkms.keyRings.create"] 0 := by
  exact ⟨by decide, by decide⟩

/-- C3 (amended): the built-in `roles/cloudkms.admin` permission list is
exactly the full §6.5 KMS universe, `cloudkms.keyRings.create`
included; consequently, for any storage whose custom catalog does not
override that role, a resolved policy whose first binding carries that
role and lists the principal unconditionally makes TestIamPermissions
allow `cloudkms.keyRings.create` when requested. -/
theorem c3_cloudkms_admin_grants (s : Storage) (res principal : Str) (pol : Policy)
    (b : Binding) (rest : List Binding) (perms : List Str) (now : GoTime)
    (hcustom : lookupA s.customRoles (str "roles/cloudkms.admin") = none)
    (hres : resolvePolicy s res = some pol)
    (hbind : pol.bindings = b :: rest)
    (hrole : b.role = str "roles/cloudkms.admin")
    (hmem : principal ∈ b.members)
    (hcond : b.condition = none)
    (hprincipal : principal ≠ [])
    (hreq : str "cloudkms.keyRings.create" ∈ perms) :
    lookupA builtInRolesList (str "roles/cloudkms.admin") = some specKmsUniverse ∧
    str "cloudkms.keyRings.create" ∈ testIamPermissions s res principal perms now := by
  refine ⟨by decide, ?_⟩
  have hrp : getRolePermissions s b.role (str "cloudkms.keyRings.create")
      = some specKmsUniverse := by
    rw [hrole]
    unfold getRolePermissions
    rw [hcustom]
    exact rfl
  have htrue : (hasPermission s pol principal (str "cloudkms.keyRings.create")
      { resourceName := res, resourceType := extractResourceType res,
        requestTime := now }).1 = true := by
    unfold hasPermission
    rw [if_neg hprincipal, hbind,
      hasPermBindings_cons_some s b rest principal _ _ specKmsUniverse hrp,
      if_pos (by decide : str "cloudkms.keyRings.create" ∈ specKmsUniverse)]
    obtain ⟨reason, hmm⟩ := matchMembers_uncond s b principal
      { resourceName := res, resourceType := extractResourceType res,
        requestTime := now } hcond b.members
      ⟨principal, hmem, principalMatches_self s principal⟩
    rw [hmm]
  have hfilter : str "cloudkms.keyRings.create" ∈ perms.filter
      (fun perm => (hasPermission s pol principal perm
        { resourceName := res, resourceType := extractResourceType res,
          requestTime := now }).1) :=
    List.mem_filter.mpr ⟨hreq, htrue⟩
  unfold testIamPermissions
  rw [hres]
  exact hfilter

/-- C3 witness: a policy at `projects/q` binding `roles/cloudkms.admin`
to `user:b@x` allows `cloudkms.keyRings.create` to that principal. -/
theorem c3_witness :
    lookupA builtInRolesList (str "roles/cloudkms.admin") = some specKmsUniverse ∧
    str "cloudkms.keyRings.create" ∈ testIamPermissions
      { policies :=
          [ (str "projects/q",
             { version := 1,
               bindings := [ { role := str "roles/cloudkms.admin",
                               members := [str "user:b@x"], condition := none } ],
               etag := [] }) ],
        groups := [], customRoles := [], allowUnknownRoles := false }
      (str "projects/q") (str "user:b@x")
      [str "cloudkms.keyRings.create", str "cloudkms.keyRings.get"] 0 := by
  exact c3_cloudkms_admin_grants
    { policies :=
        [ (str "projects/q",
           { version := 1,
             bindings := [ { role := str "roles/cloudkms.admin",
                             members := [str "user:b@x"], condition := none } ],
             etag := [] }) ],
      groups := [], customRoles := [], allowUnknownRoles := false }
    (str "projects/q") (str "user:b@x")
    { version := 1,
      bindings := [ { role := str "roles/cloudkms.admin",
                      members := [str "user:b@x"], condition := none } ],
      etag := [] }
    { role := str "roles/cloudkms.admin", members := [str "user:b@x"], condition := none }
    [] [str "cloudkms.keyRings.create", str "cloudkms.keyRings.get"] 0
    (by decide) (by decide) rfl rfl (by decide) rfl (by decide) (by decide)

theorem loadPolicies_lookup_notmem (entries : List (Str × Policy)) :
    ∀ (s : Storage) (r : Str), r ∉ entries.map Prod.fst →
    lookupA (loadPolicies s entries).policies r = lookupA s.policies r := by
  induction entries with
  | nil =>
    intro s r _
    rfl
  | cons e rest ih =>
    intro s r hr
    have hne : e.1 ≠ r := by
      intro h
      exact hr (by rw [List.map_cons]; exact List.mem_cons.mpr (Or.inl h.symm))
    rw [loadPolicies, ih _ r (fun hx => hr (List.mem_cons_of_mem _ hx))]
    simp only [lookupA_insertA, if_neg hne]

/-- C4 counterexample: a bulk-loaded version-3 policy containing a
binding whose condition is present with an empty expression is rejected
by the single write (`SetIamPolicy`) but accepted and stored by the bulk
load (`LoadPolicies`), contrary to the claim that the bulk load applies
the same per-entry normalization as a single write. -/
theorem c4_counterexample :
    (setIamPolicy emptyStorage (str "projects/p")
      { version := 3,
        bindings := [ { role := str "roles/owner",
                        members := [str "user:admin@example.com"],
                        condition := some { expression := [], title := [], description := [] } } ],
        etag := [] }).2
      = Except.error (str "condition expression cannot be empty when version is 3") ∧
    lookupA (loadPolicies emptyStorage
        [ (str "projects/p",
           { version := 3,
             bindings := [ { role := str "roles/owner",
                             members := [str "user:admin@example.com"],
                             condition := some { expression := [], title := [],
                                                 description := [] } } ],
             etag := [] }) ]).policies (str "projects/p")
      = some
          { version := 3,
            bindings := [ { role := str "roles/owner",
                            members := [str "user:admin@example.com"],
                            condition := some { expression := [], title := [],
                                                description := [] } } ],
            etag := generateEtag
              { version := 3,
                bindings := [ { role := str "roles/owner",
                                members := [str "user:admin@example.com"],
                                condition := some { expression := [], title := [],
                                                    description := [] } } ],
                etag := [] } } := by
  exact ⟨rfl, rfl⟩

/-- C4 (amended): for every entry of a bulk-loaded map (keys distinct,
as in a Go map), the stored policy is the entry with version 0
normalized to 1 and the etag computed from the normalized content; no
version-3 empty-condition validation is applied and no error can be
reported (`LoadPolicies` has no error return). -/
theorem c4_loadPolicies_normalization (s : Storage) (entries : List (Str × Policy))
    (r : Str) (pol : Policy)
    (hmem : (r, pol) ∈ entries)
    (hkeys : (entries.map Prod.fst).Nodup) :
    lookupA (loadPolicies s entries).policies r =
      some { version := if pol.version = 0 then 1 else pol.version,
             bindings := pol.bindings,
             etag := generateEtag
               (if pol.version = 0 then { pol with version := 1 } else pol) } := by
  induction entries generalizing s with
  | nil => cases hmem
  | cons e rest ih =>
    rcases List.mem_cons.mp hmem with heq | hrest
    · have hr : r ∉ rest.map Prod.fst := by
        rw [List.map_cons] at hkeys
        have := (List.nodup_cons.mp hkeys).1
        intro hx
        rw [← heq] at this
        exact this hx
      rw [loadPolicies, loadPolicies_lookup_notmem rest _ r hr]
      rw [← heq]
      simp only [lookupA_insertA, if_pos rfl]
      by_cases hv : pol.version = 0
      · simp [if_pos hv]
      · simp [if_neg hv]
    · have hkeys2 : (rest.map Prod.fst).Nodup := by
        rw [List.map_cons] at hkeys
        exact (List.nodup_cons.mp hkeys).2
      rw [loadPolicies]
      exact ih _ hrest hkeys2

/-- C4 witness: loading the single-entry map `projects/q ↦ c4Pol`
stores it with version 1 and a computed etag. -/
theorem c4_witness :
    lookupA (loadPolicies emptyStorage [(str "projects/q", c4Pol)]).policies
        (str "projects/q")
      = some { version := if c4Pol.version = 0 then 1 else c4Pol.version,
               bindings := c4Pol.bindings,
               etag := generateEtag
                 (if c4Pol.version = 0 then { c4Pol with version := 1 } else c4Pol) } := by
  exact c4_loadPolicies_normalization emptyStorage _ _ c4Pol (by simp) (by simp)

/-- C5 counterexample: `resource.type != "SECRET"` is not an instance of
any of the four recognized patterns of the spec grammar, yet the
evaluator dispatches on the substring `resource.type`, extracts the
quoted literal, and returns true when the context type is `SECRET` —
the claim says any expression outside the four patterns evaluates to
false. -/
theorem c5_counterexample :
    ¬ specRecognizedExpr (str "resource.type != \"SECRET\"") ∧
    (evaluateCondition
      (some { expression := str "resource.type != \"SECRET\"", title := [],
              description := [] })
      { resourceName := str "projects/p/secrets/s", resourceType := str "SECRET",
        requestTime := 0 }).1 = true := by
  constructor
  · intro h
    rcases h with ⟨p, hp⟩ | ⟨t, ht⟩ | ⟨t, ht⟩ | ⟨t, ht⟩
    · have : str "resource.name.startsWith(\"" <+: str "resource.type != \"SECRET\"" :=
        ⟨p ++ str "\")", by rw [← List.append_assoc, ← hp]⟩
      exact absurd this (by decide)
    · have : str "resource.type == \"" <+: str "resource.type != \"SECRET\"" :=
        ⟨t ++ str "\"", by rw [← List.append_assoc, ← ht]⟩
      exact absurd this (by decide)
    · have : str "request.time < timestamp(\"" <+: str "resource.type != \"SECRET\"" :=
        ⟨t ++ str "\")", by rw [← List.append_assoc, ← ht]⟩
      exact absurd this (by decide)
    · have : str "request.time > timestamp(\"" <+: str "resource.type != \"SECRET\"" :=
        ⟨t ++ str "\")", by rw [← List.append_assoc, ← ht]⟩
      exact absurd this (by decide)
  · decide

/-- C5 (amended): a nil condition and a whitespace-only (or empty)
expression are vacuously true; an expression containing none of the
three dispatch substrings `resource.name.startsWith`, `resource.type`,
`request.time` evaluates to false with the unsupported-expression
reason; evaluation is total, so no error ever reaches the caller.
Dispatch is by substring presence, so an expression containing a
dispatch substring is handed to the matching evaluator even when it is
not an instance of the corresponding spec pattern. -/
theorem c5_condition_fallbacks (cond : CondExpr) (ctx : EvalContext) :
    evaluateCondition none ctx = (true, str "no condition") ∧
    (trimSpace cond.expression = [] →
      evaluateCondition (some cond) ctx = (true, str "empty condition")) ∧
    (trimSpace cond.expression ≠ [] →
      strContains (trimSpace cond.expression) (str "resource.name.startsWith") = false →
      strContains (trimSpace cond.expression) (str "resource.type") = false →
      strContains (trimSpace cond.expression) (str "request.time") = false →
      evaluateCondition (some cond) ctx =
        (false, str "unsupported CEL expression: " ++ trimSpace cond.expression)) := by
  have hbody : evaluateCondition (some cond) ctx =
      (if trimSpace cond.expression = [] then (true, str "empty condition")
       else if strContains (trimSpace cond.expression) (str "resource.name.startsWith") = true
         then evalStartsWith (trimSpace cond.expression) ctx.resourceName
       else if strContains (trimSpace cond.expression) (str "resource.type") = true
         then evalResourceType (trimSpace cond.expression) ctx.resourceType
       else if strContains (trimSpace cond.expression) (str "request.time") = true
         then evalRequestTime (trimSpace cond.expression) ctx.requestTime
       else (false, str "unsupported CEL expression: " ++ trimSpace cond.expression)) := rfl
  refine ⟨rfl, ?_, ?_⟩
  · intro hempty
    rw [hbody, if_pos hempty]
  · intro hne h1 h2 h3
    rw [hbody, if_neg hne,
      if_neg (by simp only [h1]; exact Bool.false_ne_true),
      if_neg (by simp only [h2]; exact Bool.false_ne_true),
      if_neg (by simp only [h3]; exact Bool.false_ne_true)]

/-- C5 witness: the whitespace-only expression `"  "` is vacuously true
and the expression `foo == 1` is unsupported and false, on a concrete
context. -/
theorem c5_witness :
    evaluateCondition (some { expression := str "  ", title := [], description := [] })
      { resourceName := str "projects/p", resourceType := str "UNKNOWN",
        requestTime := 0 } = (true, str "empty condition") ∧
    evaluateCondition (some { expression := str "foo == 1", title := [], description := [] })
      { resourceName := str "projects/p", resourceType := str "UNKNOWN",
        requestTime := 0 } =
      (false, str "unsupported CEL expression: "
        ++ trimSpace (str "foo == 1")) := by
  constructor
  · exact (c5_condition_fallbacks
      { expression := str "  ", title := [], description := [] }
      { resourceName := str "projects/p", resourceType := str "UNKNOWN",
        requestTime := 0 }).2.1 (by decide)
  · exact (c5_condition_fallbacks
      { expression := str "foo == 1", title := [], description := [] }
      { resourceName := str "projects/p", resourceType := str "UNKNOWN",
        requestTime := 0 }).2.2 (by decide) (by decide) (by decide) (by decide)

/-- C6: with groups `A → [group:B]`, `B → [group:C]`, `C → [P]` (for a
principal P that is not itself one of the three `group:` member
strings), the member `group:A` does not match P — the nesting through B
to C is not followed — while the member `group:B` does match P (one
level of group-in-group is followed).  The traversal is two structurally
bounded loops, so it terminates on every group table, cycles
included. -/
theorem c6_group_depth_two (s : Storage) (P : Str)
    (hA : lookupA s.groups (str "A") = some [str "group:B"])
    (hB : lookupA s.groups (str "B") = some [str "group:C"])
    (hC : lookupA s.groups (str "C") = some [P])
    (hPa : P ≠ str "group:A") (hPb : P ≠ str "group:B") (hPc : P ≠ str "group:C") :
    principalMatches s P (str "group:A") = false ∧
    principalMatches s P (str "group:B") = true := by
  constructor
  · unfold principalMatches
    rw [if_neg hPa, if_neg (by decide),
      if_pos (show strStartsWith (str "group:A") (str "group:") = true by decide)]
    rw [show strTrimLead (str "group:A") (str "group:") = str "A" by decide, hA]
    simp only [List.any_cons, List.any_nil, Bool.or_false]
    rw [decide_eq_false (fun h => hPb h.symm)]
    rw [show strStartsWith (str "group:B") (str "group:") = true by decide]
    rw [show strTrimLead (str "group:B") (str "group:") = str "B" by decide, hB]
    simp only [List.any_cons, List.any_nil, Bool.or_false]
    rw [decide_eq_false (fun h => hPc h.symm)]
    rfl
  · unfold principalMatches
    rw [if_neg hPb, if_neg (by decide),
      if_pos (show strStartsWith (str "group:B") (str "group:") = true by decide)]
    rw [show strTrimLead (str "group:B") (str "group:") = str "B" by decide, hB]
    simp only [List.any_cons, List.any_nil, Bool.or_false]
    rw [decide_eq_false (fun h => hPc h.symm)]
    rw [show strStartsWith (str "group:C") (str "group:") = true by decide]
    rw [show strTrimLead (str "group:C") (str "group:") = str "C" by decide, hC]
    simp only [List.any_cons, List.any_nil, Bool.or_false, decide_eq_true_eq]
    simp

/-- C6 witness: the depth-two bound at the concrete principal
`user:p@x` and the three-group table. -/
theorem c6_witness :
    principalMatches
      { policies := [], groups := [ (str "A", [str "group:B"]), (str "B", [str "group:C"]),
                                    (str "C", [str "user:p@x"]) ],
        customRoles := [], allowUnknownRoles := false }
      (str "user:p@x") (str "group:A") = false ∧
    principalMatches
      { policies := [], groups := [ (str "A", [str "group:B"]), (str "B", [str "group:C"]),
                                    (str "C", [str "user:p@x"]) ],
        customRoles := [], allowUnknownRoles := false }
      (str "user:p@x") (str "group:B") = true := by
  exact c6_group_depth_two _ (str "user:p@x")
    (by decide) (by decide) (by decide) (by decide) (by decide) (by decide)

/-- C7: with an empty principal, a requested permission is in the
allowed list iff it was requested and some binding of the resolved
policy has a role whose expansion contains it; member matching plays no
part. -/
theorem c7_empty_principal (s : Storage) (res : Str) (perms : List Str)
    (p : Str) (now : GoTime) :
    p ∈ testIamPermissions s res [] perms now ↔
      p ∈ perms ∧ ∃ pol, resolvePolicy s res = some pol ∧
        ∃ b ∈ pol.bindings, ∃ rp, getRolePermissions s b.role p = some rp ∧ p ∈ rp := by
  unfold testIamPermissions
  cases hres : resolvePolicy s res with
  | none =>
    simp only [List.not_mem_nil, false_iff]
    rintro ⟨-, pol, hpol, -⟩
    cases hpol
  | some pol =>
    have hfilter : p ∈ perms.filter
        (fun perm => (hasPermission s pol [] perm
          { resourceName := res, resourceType := extractResourceType res,
            requestTime := now }).1) ↔
        p ∈ perms ∧ (hasPermNoPrincipal s pol.bindings p).1 = true := by
      rw [List.mem_filter]
      unfold hasPermission
      rw [if_pos rfl]
    rw [show (match some pol with
        | none => ([] : List Str)
        | some policy =>
          List.filter (fun perm => (hasPermission s policy [] perm
            { resourceName := res, resourceType := extractResourceType res,
              requestTime := now }).1) perms) =
        List.filter (fun perm => (hasPermission s pol [] perm
          { resourceName := res, resourceType := extractResourceType res,
            requestTime := now }).1) perms from rfl]
    rw [hfilter, hasPermNoPrincipal_true_iff]
    constructor
    · rintro ⟨hp, b, hb, hrp⟩
      exact ⟨hp, pol, rfl, b, hb, hrp⟩
    · rintro ⟨hp, pol2, hpol2, b, hb, hrp⟩
      cases hpol2
      exact ⟨hp, b, hb, hrp⟩

/-- C8: hierarchical resolution returns the nearest stored ancestor.
For a resource `a/b/ext` (an even-length extension `ext` of the
two-segment root `a/b`, segments free of slashes), if the prefix with
`m` extension segments is stored and every strictly longer even prefix
(including the exact resource) is not, then `resolvePolicy` returns
that stored policy: the exact match when `m = ext.length`, the `a/b`
root policy when `m = 0` and no closer ancestor is stored, and the
closer ancestor — shadowing the root — otherwise. -/
theorem c8_nearest_ancestor (s : Storage) (a b : Str) (ext : List Str)
    (q : Policy) (m : Nat)
    (hA : '/' ∉ a) (hB : '/' ∉ b) (hext : ∀ x ∈ ext, '/' ∉ x)
    (heven : ext.length % 2 = 0) (hm : m % 2 = 0) (hmle : m ≤ ext.length)
    (hstored : lookupA s.policies (joinSegs (a :: b :: ext.take m)) = some q)
    (habove : ∀ m2, m2 % 2 = 0 → m < m2 → m2 ≤ ext.length →
      lookupA s.policies (joinSegs (a :: b :: ext.take m2)) = none) :
    resolvePolicy s (joinSegs (a :: b :: ext)) = some q := by
  have hsplit : splitOnChar (joinSegs (a :: b :: ext)) '/' = a :: b :: ext := by
    refine splitJoin (a :: b :: ext) (by simp) ?_
    intro x hx
    rcases List.mem_cons.mp hx with h1 | h1
    · exact h1 ▸ hA
    · rcases List.mem_cons.mp h1 with h2 | h2
      · exact h2 ▸ hB
      · exact hext x h2
  unfold resolvePolicy
  by_cases hexact : m = ext.length
  · have : lookupA s.policies (joinSegs (a :: b :: ext)) = some q := by
      rw [← List.take_length (l := ext), ← hexact]
      exact hstored
    rw [this]
  · have hlt : m < ext.length := Nat.lt_of_le_of_ne hmle hexact
    have hnone : lookupA s.policies (joinSegs (a :: b :: ext)) = none := by
      have := habove ext.length heven hlt (le_refl _)
      rw [List.take_length] at this
      exact this
    rw [hnone, hsplit]
    exact resolveWalk_finds s.policies a b q ext.length ext rfl heven m hm
      (by omega) hstored (fun m2 h1 h2 h3 => habove m2 h1 h2 (by omega))

/-- C8 witness: with only `projects/p` stored, resolving
`projects/p/secrets/s1` returns the `projects/p` policy. -/
theorem c8_witness :
    resolvePolicy
      { policies := [ (str "projects/p",
          { version := 1, bindings := [], etag := [] }) ],
        groups := [], customRoles := [], allowUnknownRoles := false }
      (joinSegs [str "projects", str "p", str "secrets", str "s1"])
      = some { version := 1, bindings := [], etag := [] } := by
  refine c8_nearest_ancestor _ (str "projects") (str "p")
    [str "secrets", str "s1"] { version := 1, bindings := [], etag := [] } 0
    (by decide) (by decide) (by decide) (by decide) (by decide) (by decide)
    (by decide) ?_
  intro m2 h1 h2 h3
  have hlen : ([str "secrets", str "s1"] : List Str).length = 2 := rfl
  rw [hlen] at h3
  have hm2 : m2 = 2 := by omega
  subst hm2
  decide

theorem getIamPolicy_insertA (s : Storage) (r : Str) (p : Policy) :
    getIamPolicy { s with policies := insertA s.policies r p } r = p := by
  unfold getIamPolicy
  rw [show ({ s with policies := insertA s.policies r p } : Storage).policies
      = insertA s.policies r p from rfl]
  rw [lookupA_insertA, if_pos rfl]

/-- C9: whenever `SetIamPolicy` accepts a write, a subsequent
`GetIamPolicy` on the same resource returns exactly the stored policy,
which equals the written input except that version 0 has been
normalized to 1 and the etag has been stamped from the normalized
content. -/
theorem c9_write_read_roundtrip (s s2 : Storage) (r : Str) (pol stored : Policy)
    (h : setIamPolicy s r pol = (s2, Except.ok stored)) :
    getIamPolicy s2 r = stored ∧
    stored.bindings = pol.bindings ∧
    stored.version = (if pol.version = 0 then 1 else pol.version) ∧
    stored.etag = generateEtag
      (if pol.version = 0 then { pol with version := 1 } else pol) := by
  have hdef : setIamPolicy s r pol =
      if (if pol.version = 0 then { pol with version := 1 } else pol).version = 3
          ∧ (if pol.version = 0 then { pol with version := 1 } else pol).bindings.any
              (fun b => match b.condition with
                        | some c => decide (c.expression = [])
                        | none => false) = true
      then (s, Except.error (str "condition expression cannot be empty when version is 3"))
      else
        ({ s with
            policies := insertA s.policies r
                ({ (if pol.version = 0 then { pol with version := 1 } else pol) with
                    etag := generateEtag
                      (if pol.version = 0 then { pol with version := 1 } else pol) }) },
         Except.ok
           ({ (if pol.version = 0 then { pol with version := 1 } else pol) with
               etag := generateEtag
                 (if pol.version = 0 then { pol with version := 1 } else pol) })) := rfl
  rw [hdef] at h
  by_cases hc : ((if pol.version = 0 then { pol with version := 1 } else pol).version = 3
      ∧ ((if pol.version = 0 then { pol with version := 1 } else pol).bindings.any
          (fun b => match b.condition with
                    | some c => decide (c.expression = [])
                    | none => false)) = true)
  · rw [if_pos hc] at h
    rw [Prod.mk.injEq] at h
    exact absurd h.2 (by simp)
  · rw [if_neg hc] at h
    rw [Prod.mk.injEq, Except.ok.injEq] at h
    obtain ⟨hs2, hok⟩ := h
    subst hs2
    subst hok
    refine ⟨getIamPolicy_insertA s r _, ?_, ?_, rfl⟩
    · by_cases hv : pol.version = 0 <;> simp [hv]
    · by_cases hv : pol.version = 0 <;> simp [hv]

/-- C9 witness: writing `c9Input` at `projects/t` and reading it back
yields the normalized stored policy. -/
theorem c9_witness :
    getIamPolicy
      { policies := [(str "projects/t", c9Stored)], groups := [], customRoles := [],
        allowUnknownRoles := false } (str "projects/t") = c9Stored ∧
    c9Stored.bindings = c9Input.bindings ∧
    c9Stored.version = (if c9Input.version = 0 then 1 else c9Input.version) ∧
    c9Stored.etag = generateEtag
      (if c9Input.version = 0 then { c9Input with version := 1 } else c9Input) := by
  exact c9_write_read_roundtrip emptyStorage _ (str "projects/t") c9Input c9Stored rfl

/-- C10: when `SetIamPolicy` rejects a write, the policy map is left
unchanged: the post-state equals the pre-state, so every subsequent read
returns exactly what it returned before the failed write. -/
theorem c10_atomic_failure (s : Storage) (r : Str) (pol : Policy) (e : Str)
    (h : (setIamPolicy s r pol).2 = Except.error e) :
    (setIamPolicy s r pol).1 = s ∧
    ∀ r2, getIamPolicy (setIamPolicy s r pol).1 r2 = getIamPolicy s r2 := by
  have hdef : setIamPolicy s r pol =
      if (if pol.version = 0 then { pol with version := 1 } else pol).version = 3
          ∧ (if pol.version = 0 then { pol with version := 1 } else pol).bindings.any
              (fun b => match b.condition with
                        | some c => decide (c.expression = [])
                        | none => false) = true
      then (s, Except.error (str "condition expression cannot be empty when version is 3"))
      else
        ({ s with
            policies := insertA s.policies r
                ({ (if pol.version = 0 then { pol with version := 1 } else pol) with
                    etag := generateEtag
                      (if pol.version = 0 then { pol with version := 1 } else pol) }) },
         Except.ok
           ({ (if pol.version = 0 then { pol with version := 1 } else pol) with
               etag := generateEtag
                 (if pol.version = 0 then { pol with version := 1 } else pol) })) := rfl
  by_cases hc : ((if pol.version = 0 then { pol with version := 1 } else pol).version = 3
      ∧ ((if pol.version = 0 then { pol with version := 1 } else pol).bindings.any
          (fun b => match b.condition with
                    | some c => decide (c.expression = [])
                    | none => false)) = true)
  · rw [hdef, if_pos hc]
    exact ⟨rfl, fun r2 => rfl⟩
  · rw [hdef, if_neg hc] at h
    exact absurd h (by simp)

/-- C10 witness: the rejected version-3 empty-condition write leaves the
empty storage unchanged. -/
theorem c10_witness :
    (setIamPolicy emptyStorage (str "projects/p") c10Bad).1 = emptyStorage ∧
    ∀ r2, getIamPolicy (setIamPolicy emptyStorage (str "projects/p") c10Bad).1 r2
      = getIamPolicy emptyStorage r2 := by
  exact c10_atomic_failure emptyStorage (str "projects/p") c10Bad
    (str "condition expression cannot be empty when version is 3") rfl
